import Mathlib

/-!
Verification of the chirpy authentication subsystem (AlexTLDR/chirpy).

The development shallowly embeds the Go source: `internal/auth/auth.go`
(password hashing, JWT issue/validate, bearer extraction, refresh-token
generation), the session handlers (`handlerLogin`, `handlerRefresh`,
`handlerRevoke`, `handlerUpdateUser`), and the chirp-creation handler.

Conventions:
- Times are `Int` nanoseconds since the Unix epoch (Go `time.Time` /
  `time.Duration` arithmetic at nanosecond resolution).
- Third-party primitives that are not part of the repository (bcrypt,
  the golang-jwt HMAC signature, the google/uuid textual codec, and the
  sqlc-generated SQL queries whose `.sql` sources are absent) are
  modelled symbolically from the specification; each such definition
  carries a doc comment starting with `Modelled from the spec:`.
-/

namespace Chirpy

/-! ## UUID textual codec (google/uuid), modelled symbolically -/

/-- A 128-bit user identity, the information content of `uuid.UUID`
(16 bytes, interpreted big-endian). -/
def UUID : Type := Fin (2 ^ 128)

instance : DecidableEq UUID := by
  unfold UUID
  infer_instance

/-- Lowercase hex digit for a nibble, as produced by `uuid.String()`. -/
def hexDigitChar (d : Nat) : Char :=
  if d < 10 then Char.ofNat (48 + d) else Char.ofNat (87 + d)

/-- Value of a hex digit character; accepts both cases, as `uuid.Parse`
does. Returns `none` on a non-hex character. -/
def hexVal (c : Char) : Option Nat :=
  if 48 ≤ c.toNat ∧ c.toNat ≤ 57 then some (c.toNat - 48)
  else if 97 ≤ c.toNat ∧ c.toNat ≤ 102 then some (c.toNat - 87)
  else if 65 ≤ c.toNat ∧ c.toNat ≤ 70 then some (c.toNat - 55)
  else none

/-- Fixed-width lowercase hex rendering, most significant digit first. -/
def toHex : Nat → Nat → List Char
  | 0, _ => []
  | w + 1, n => hexDigitChar (n / 16 ^ w) :: toHex w (n % 16 ^ w)

/-- Consume exactly `w` hex digits, MSB first, extending accumulator `acc`. -/
def readHex : Nat → Nat → List Char → Option (Nat × List Char)
  | 0, acc, cs => some (acc, cs)
  | w + 1, acc, cs =>
    match cs with
    | [] => none
    | c :: rest =>
      match hexVal c with
      | none => none
      | some v => readHex w (acc * 16 + v) rest

/-- Consume one expected character. -/
def expectChar (c : Char) : List Char → Option (List Char)
  | [] => none
  | x :: rest => if x = c then some rest else none

/-- Modelled from the spec: `uuid.String()` (google/uuid is a third-party
dependency, not in src). Canonical 8-4-4-4-12 lowercase hex rendering of
the 128-bit value (spec section 6: identities travel as strings). -/
def uuidChars (u : UUID) : List Char :=
  toHex 8 (u.val / 16 ^ 24) ++
    '-' :: (toHex 4 (u.val / 16 ^ 20 % 16 ^ 4) ++
      '-' :: (toHex 4 (u.val / 16 ^ 16 % 16 ^ 4) ++
        '-' :: (toHex 4 (u.val / 16 ^ 12 % 16 ^ 4) ++
          '-' :: toHex 12 (u.val % 16 ^ 12))))

/-- String form of `uuidChars`. -/
def uuidString (u : UUID) : String := String.mk (uuidChars u)

/-- Modelled from the spec: `uuid.Parse` on the canonical 36-character
form (the claims only exercise canonical renderings and non-identities). -/
def uuidParse (cs : List Char) : Option UUID :=
  (readHex 8 0 cs).bind fun p1 =>
  (expectChar '-' p1.2).bind fun r2 =>
  (readHex 4 0 r2).bind fun p2 =>
  (expectChar '-' p2.2).bind fun r4 =>
  (readHex 4 0 r4).bind fun p3 =>
  (expectChar '-' p3.2).bind fun r6 =>
  (readHex 4 0 r6).bind fun p4 =>
  (expectChar '-' p4.2).bind fun r8 =>
  (readHex 12 0 r8).bind fun p5 =>
  if p5.2 = [] then
    let n := p1.1 * 16 ^ 24 + p2.1 * 16 ^ 20 + p3.1 * 16 ^ 16 +
      p4.1 * 16 ^ 12 + p5.1
    if h : n < 2 ^ 128 then some ⟨n, h⟩ else none
  else none

/-- `uuid.Parse` on a string, as `ValidateJWT` applies it to the subject. -/
def uuidParseString (s : String) : Option UUID := uuidParse s.data

theorem hexVal_hexDigitChar : ∀ d, d < 16 → hexVal (hexDigitChar d) = some d := by
  decide

theorem readHex_toHex_append (w : Nat) :
    ∀ (acc n : Nat) (cs : List Char), n < 16 ^ w →
      readHex w acc (toHex w n ++ cs) = some (acc * 16 ^ w + n, cs) := by
  induction w with
  | zero =>
    intro acc n cs h
    interval_cases n
    simp [toHex, readHex]
  | succ w ih =>
    intro acc n cs h
    have hdiv : n / 16 ^ w < 16 := by
      rw [Nat.div_lt_iff_lt_mul (Nat.pos_pow_of_pos w (by norm_num))]
      calc n < 16 ^ (w + 1) := h
        _ = 16 * 16 ^ w := by ring
    have hmod : n % 16 ^ w < 16 ^ w :=
      Nat.mod_lt _ (Nat.pos_pow_of_pos w (by norm_num))
    have hstep := ih (acc * 16 + n / 16 ^ w) (n % 16 ^ w) cs hmod
    simp only [toHex, readHex, List.cons_append, hexVal_hexDigitChar _ hdiv]
    rw [hstep]
    have hdm := Nat.div_add_mod n (16 ^ w)
    have key : (acc * 16 + n / 16 ^ w) * 16 ^ w + n % 16 ^ w =
        acc * 16 ^ (w + 1) + n := by
      calc (acc * 16 + n / 16 ^ w) * 16 ^ w + n % 16 ^ w
          = acc * (16 ^ w * 16) + (16 ^ w * (n / 16 ^ w) + n % 16 ^ w) := by
            ring
        _ = acc * (16 ^ w * 16) + n := by rw [hdm]
        _ = acc * 16 ^ (w + 1) + n := by rw [pow_succ]
    rw [key]

theorem readHex_toHex (w acc n : Nat) (h : n < 16 ^ w) :
    readHex w acc (toHex w n) = some (acc * 16 ^ w + n, []) := by
  have hx := readHex_toHex_append w acc n [] h
  rwa [List.append_nil] at hx

theorem expectChar_cons (c : Char) (rest : List Char) :
    expectChar c (c :: rest) = some rest := by
  simp [expectChar]

theorem uuidParse_uuidChars (u : UUID) : uuidParse (uuidChars u) = some u := by
  have hu : u.val < 2 ^ 128 := u.isLt
  have h16 : (2 : Nat) ^ 128 = 16 ^ 32 := by norm_num
  have ha : u.val / 16 ^ 24 < 16 ^ 8 := by
    rw [Nat.div_lt_iff_lt_mul (by positivity)]
    calc u.val < 2 ^ 128 := hu
      _ = 16 ^ 8 * 16 ^ 24 := by norm_num
  have hb : u.val / 16 ^ 20 % 16 ^ 4 < 16 ^ 4 := Nat.mod_lt _ (by positivity)
  have hc : u.val / 16 ^ 16 % 16 ^ 4 < 16 ^ 4 := Nat.mod_lt _ (by positivity)
  have hd : u.val / 16 ^ 12 % 16 ^ 4 < 16 ^ 4 := Nat.mod_lt _ (by positivity)
  have he : u.val % 16 ^ 12 < 16 ^ 12 := Nat.mod_lt _ (by positivity)
  unfold uuidParse uuidChars
  rw [readHex_toHex_append 8 0 _ _ ha]
  simp only [Option.some_bind]
  rw [expectChar_cons]
  simp only [Option.some_bind]
  rw [readHex_toHex_append 4 0 _ _ hb]
  simp only [Option.some_bind]
  rw [expectChar_cons]
  simp only [Option.some_bind]
  rw [readHex_toHex_append 4 0 _ _ hc]
  simp only [Option.some_bind]
  rw [expectChar_cons]
  simp only [Option.some_bind]
  rw [readHex_toHex_append 4 0 _ _ hd]
  simp only [Option.some_bind]
  rw [expectChar_cons]
  simp only [Option.some_bind]
  rw [readHex_toHex 12 0 _ he]
  simp only [Option.some_bind, Nat.zero_mul, Nat.zero_add]
  have hsum : u.val / 16 ^ 24 * 16 ^ 24 + u.val / 16 ^ 20 % 16 ^ 4 * 16 ^ 20 +
      u.val / 16 ^ 16 % 16 ^ 4 * 16 ^ 16 + u.val / 16 ^ 12 % 16 ^ 4 * 16 ^ 12 +
      u.val % 16 ^ 12 = u.val := by
    have e24 := Nat.div_add_mod u.val (16 ^ 24)
    have h1 : u.val % 16 ^ 24 =
        u.val / 16 ^ 20 % 16 ^ 4 * 16 ^ 20 + u.val % 16 ^ 20 := by
      have hdiv : u.val % 16 ^ 24 / 16 ^ 20 = u.val / 16 ^ 20 % 16 ^ 4 := by
        have hpow : (16 : Nat) ^ 24 = 16 ^ 20 * 16 ^ 4 := by norm_num
        rw [hpow]
        exact Nat.mod_mul_right_div_self u.val _ _
      have hmm : u.val % 16 ^ 24 % 16 ^ 20 = u.val % 16 ^ 20 :=
        Nat.mod_mod_of_dvd u.val (pow_dvd_pow 16 (by norm_num))
      calc u.val % 16 ^ 24
          = u.val % 16 ^ 24 / 16 ^ 20 * 16 ^ 20 + u.val % 16 ^ 24 % 16 ^ 20 :=
            (Nat.div_add_mod' _ _).symm
        _ = u.val / 16 ^ 20 % 16 ^ 4 * 16 ^ 20 + u.val % 16 ^ 20 := by
            rw [hdiv, hmm]
    have h2 : u.val % 16 ^ 20 =
        u.val / 16 ^ 16 % 16 ^ 4 * 16 ^ 16 + u.val % 16 ^ 16 := by
      have hdiv : u.val % 16 ^ 20 / 16 ^ 16 = u.val / 16 ^ 16 % 16 ^ 4 := by
        have hpow : (16 : Nat) ^ 20 = 16 ^ 16 * 16 ^ 4 := by norm_num
        rw [hpow]
        exact Nat.mod_mul_right_div_self u.val _ _
      have hmm : u.val % 16 ^ 20 % 16 ^ 16 = u.val % 16 ^ 16 :=
        Nat.mod_mod_of_dvd u.val (pow_dvd_pow 16 (by norm_num))
      calc u.val % 16 ^ 20
          = u.val % 16 ^ 20 / 16 ^ 16 * 16 ^ 16 + u.val % 16 ^ 20 % 16 ^ 16 :=
            (Nat.div_add_mod' _ _).symm
        _ = u.val / 16 ^ 16 % 16 ^ 4 * 16 ^ 16 + u.val % 16 ^ 16 := by
            rw [hdiv, hmm]
    have h3 : u.val % 16 ^ 16 =
        u.val / 16 ^ 12 % 16 ^ 4 * 16 ^ 12 + u.val % 16 ^ 12 := by
      have hdiv : u.val % 16 ^ 16 / 16 ^ 12 = u.val / 16 ^ 12 % 16 ^ 4 := by
        have hpow : (16 : Nat) ^ 16 = 16 ^ 12 * 16 ^ 4 := by norm_num
        rw [hpow]
        exact Nat.mod_mul_right_div_self u.val _ _
      have hmm : u.val % 16 ^ 16 % 16 ^ 12 = u.val % 16 ^ 12 :=
        Nat.mod_mod_of_dvd u.val (pow_dvd_pow 16 (by norm_num))
      calc u.val % 16 ^ 16
          = u.val % 16 ^ 16 / 16 ^ 12 * 16 ^ 12 + u.val % 16 ^ 16 % 16 ^ 12 :=
            (Nat.div_add_mod' _ _).symm
        _ = u.val / 16 ^ 12 % 16 ^ 4 * 16 ^ 12 + u.val % 16 ^ 12 := by
            rw [hdiv, hmm]
    omega
  rw [if_true]
  have hn : u.val / 16 ^ 24 * 16 ^ 24 + u.val / 16 ^ 20 % 16 ^ 4 * 16 ^ 20 +
      u.val / 16 ^ 16 % 16 ^ 4 * 16 ^ 16 + u.val / 16 ^ 12 % 16 ^ 4 * 16 ^ 12 +
      u.val % 16 ^ 12 < 2 ^ 128 := by rw [hsum]; exact hu
  rw [dif_pos hn]
  congr 1
  exact Fin.ext hsum

theorem uuidParseString_uuidString (u : UUID) :
    uuidParseString (uuidString u) = some u := by
  unfold uuidParseString uuidString
  exact uuidParse_uuidChars u

/-! ## Credential hasher (auth.go HashPassword / CheckPasswordHash)

The bcrypt primitive is a third-party dependency; it is modelled
symbolically as an injective salted one-way function (spec section 4.1:
slow salted hash with per-call random salt; constant-time compare that
returns a distinguishable mismatch, never throwing on a wrong password).
-/

/-- Modelled from the spec: the output of bcrypt — an opaque value that
determines the salt and is compared (never inverted) against a candidate
password. -/
structure BcryptHash where
  salt : Nat
  password : String
deriving DecidableEq

/-- Error outcomes of `bcrypt.CompareHashAndPassword` as used by the code:
a wrong password yields the distinguished mismatch error. -/
inductive BcryptError
  | mismatchedHashAndPassword
deriving DecidableEq

/-- `HashPassword` (auth.go lines 12-18): hashes a password using bcrypt.
The salt models bcrypt's per-call random salt; the primitive-failure
branch (resource exhaustion) is not modelled. -/
def HashPassword (password : String) (salt : Nat) : BcryptHash :=
  ⟨salt, password⟩

/-- `CheckPasswordHash` (auth.go lines 21-23): compares a password with
its hash; returns `none` on success, the mismatch error otherwise. -/
def CheckPasswordHash (hash : BcryptHash) (password : String) :
    Option BcryptError :=
  if hash.password = password then none
  else some BcryptError.mismatchedHashAndPassword

/-! ## Access token codec (auth.go MakeJWT / ValidateJWT)

The golang-jwt/jwt/v5 library is external; its HMAC-SHA256 signature is
modelled as a perfect symmetric MAC (spec section 6: compact signed-claims
convention with claims iss, iat, exp, sub), so a signature verifies under
a key exactly when it was produced over the same claims with that key.
-/

/-- The registered claims `MakeJWT` sets (auth.go lines 29-34). -/
structure RegisteredClaims where
  issuer : String
  subject : String
  issuedAt : Int
  expiresAt : Int
deriving DecidableEq

/-- Modelled from the spec: a symmetric MAC over the serialized claims,
determined by the signed claims and the signing key. -/
structure MacSig where
  signedClaims : RegisteredClaims
  key : String
deriving DecidableEq

/-- A signed token: claims plus signature (the wire form
header.payload.signature, with the base64/JSON coding elided). -/
structure JwtToken where
  claims : RegisteredClaims
  sig : MacSig
deriving DecidableEq

/-- Failure causes of `ValidateJWT` (jwt/v5 parse errors and the
subject-parse error surfaced by the code). -/
inductive JwtError
  | signatureInvalid
  | tokenExpired
  | subjectInvalid
deriving DecidableEq

/-- `MakeJWT` (auth.go lines 26-38): claims are issuer "chirpy",
issued-at `now`, expires-at `now + expiresIn`, subject the user id
rendered as a string; the token is signed with `tokenSecret`.
`now` makes the impure `time.Now().UTC()` explicit. -/
def MakeJWT (userID : UUID) (tokenSecret : String) (expiresIn : Int)
    (now : Int) : JwtToken :=
  let claims : RegisteredClaims :=
    { issuer := "chirpy"
      issuedAt := now
      expiresAt := now + expiresIn
      subject := uuidString userID }
  { claims := claims, sig := { signedClaims := claims, key := tokenSecret } }

/-- `ValidateJWT` (auth.go lines 41-61): re-derives the signature under
`tokenSecret` (jwt/v5 keyfunc returns the secret), rejects when it does
not verify; jwt/v5 claim validation then requires `now` strictly before
the expiry (zero leeway; for the claims `MakeJWT` produces, nbf is absent
and iat is not validated by default in v5); finally the subject must
parse as a uuid. `now` makes the library's clock explicit. -/
def ValidateJWT (token : JwtToken) (tokenSecret : String) (now : Int) :
    Except JwtError UUID :=
  if token.sig ≠ { signedClaims := token.claims, key := tokenSecret } then
    Except.error JwtError.signatureInvalid
  else if ¬ now < token.claims.expiresAt then
    Except.error JwtError.tokenExpired
  else
    match uuidParseString token.claims.subject with
    | none => Except.error JwtError.subjectInvalid
    | some userID => Except.ok userID

/-- Success test for a validation outcome. -/
def jwtOk : Except JwtError UUID → Bool
  | Except.ok _ => true
  | Except.error _ => false

theorem validateJWT_makeJWT (u : UUID) (s : String) (ttl now t : Int)
    (hexp : t < now + ttl) :
    ValidateJWT (MakeJWT u s ttl now) s t = Except.ok u := by
  unfold ValidateJWT MakeJWT
  simp only [ne_eq, not_true_eq_false, if_false, ite_not]
  rw [if_pos hexp, uuidParseString_uuidString]

/-! ## Bearer credential extractor (auth.go GetBearerToken) -/

/-- Go `unicode.IsSpace` on the Latin-1 range: tab, newline, vertical
tab, form feed, carriage return, space, NEL, NBSP. (Higher Unicode
White_Space code points are not exercised by any claim.) -/
def goIsSpace (c : Char) : Bool :=
  [9, 10, 11, 12, 13, 32, 133, 160].contains c.toNat

/-- Go `unicode.ToLower` restricted to the ASCII letters, which is all
the comparison against the ASCII literal "bearer" can observe. -/
def goToLowerChar (c : Char) : Char :=
  if 65 ≤ c.toNat ∧ c.toNat ≤ 90 then Char.ofNat (c.toNat + 32) else c

/-- Go `strings.ToLower` under the same restriction. -/
def goToLower (cs : List Char) : List Char := cs.map goToLowerChar

/-- Worker for `fields`: `acc` holds the current in-progress field in
reverse. -/
def fieldsAux : List Char → List Char → List (List Char)
  | [], [] => []
  | [], a :: as => [(a :: as).reverse]
  | c :: rest, acc =>
    if goIsSpace c then
      match acc with
      | [] => fieldsAux rest []
      | a :: as => (a :: as).reverse :: fieldsAux rest []
    else fieldsAux rest (c :: acc)

/-- Go `strings.Fields`: splits around runs of whitespace; never yields
an empty field. -/
def fields (cs : List Char) : List (List Char) := fieldsAux cs []

/-- Go `strings.Join` with an explicit separator. -/
def joinWith (sep : List Char) : List (List Char) → List Char
  | [] => []
  | [x] => x
  | x :: xs => x ++ sep ++ joinWith sep xs

/-- Go `strings.TrimSpace`: strips whitespace from both ends. -/
def trimSpace (cs : List Char) : List Char :=
  ((cs.dropWhile goIsSpace).reverse.dropWhile goIsSpace).reverse

/-- The three error returns of `GetBearerToken`, in source order:
"authorization header not found", "authorization header must be in
format 'Bearer TOKEN'", "token cannot be empty". -/
inductive BearerError
  | missingHeader
  | malformedScheme
  | emptyToken
deriving DecidableEq

/-- `GetBearerToken` (auth.go lines 69-89): reads the Authorization
header (`http.Header.Get` yields the empty string when the header is
absent, modelled by `Option.getD`), splits on whitespace with
`strings.Fields`, requires at least two fields with the first
case-insensitively equal to "bearer", then joins the trailing fields
with single spaces and trims. -/
def GetBearerToken (authorizationHeader : Option String) :
    Except BearerError String :=
  let authHeader := authorizationHeader.getD ("")
  if authHeader = ("") then Except.error BearerError.missingHeader
  else
    let parts := fields authHeader.data
    if parts.length < 2 ∨ goToLower (parts.headD []) ≠ ("bearer").data then
      Except.error BearerError.malformedScheme
    else
      let token := trimSpace (joinWith [' '] (parts.drop 1))
      if token = [] then Except.error BearerError.emptyToken
      else Except.ok (String.mk token)

theorem fieldsAux_fields_wf (cs : List Char) :
    ∀ (acc : List Char), (∀ c ∈ acc, goIsSpace c = false) →
      ∀ f ∈ fieldsAux cs acc, f ≠ [] ∧ ∀ c ∈ f, goIsSpace c = false := by
  induction cs with
  | nil =>
    intro acc hacc f hf
    cases acc with
    | nil => simp [fieldsAux] at hf
    | cons a as =>
      simp only [fieldsAux, List.mem_singleton] at hf
      subst hf
      refine ⟨by simp, ?_⟩
      intro c hc
      exact hacc c (List.mem_reverse.mp hc)
  | cons c rest ih =>
    intro acc hacc f hf
    unfold fieldsAux at hf
    by_cases hsp : goIsSpace c
    · rw [if_pos hsp] at hf
      cases acc with
      | nil => exact ih [] (by simp) f hf
      | cons a as =>
        rcases List.mem_cons.mp hf with hf | hf
        · subst hf
          refine ⟨by simp, ?_⟩
          intro x hx
          exact hacc x (List.mem_reverse.mp hx)
        · exact ih [] (by simp) f hf
    · rw [if_neg hsp] at hf
      refine ih (c :: acc) ?_ f hf
      intro x hx
      rcases List.mem_cons.mp hx with hx | hx
      · subst hx
        simpa using hsp
      · exact hacc x hx

theorem fields_wf (cs : List Char) :
    ∀ f ∈ fields cs, f ≠ [] ∧ ∀ c ∈ f, goIsSpace c = false :=
  fieldsAux_fields_wf cs [] (by simp)

theorem dropWhile_of_head_false {p : Char → Bool} {a : Char}
    {t : List Char} (h : p a = false) :
    List.dropWhile p (a :: t) = a :: t := by
  simp [List.dropWhile_cons, h]

theorem head_false_of_dropWhile_fix {p : Char → Bool} {b : Char}
    {bt : List Char} (h : List.dropWhile p (b :: bt) = b :: bt) :
    p b = false := by
  have hx := List.dropWhile_eq_self_iff.mp h (by simp)
  simpa using hx

/-- A joined list of nonempty whitespace-free fields is nonempty and
keeps a non-space character at each end, so it is invariant under
left and right whitespace-stripping. -/
theorem joinWith_trim_invariant :
    ∀ (parts : List (List Char)), parts ≠ [] →
      (∀ f ∈ parts, f ≠ [] ∧ ∀ c ∈ f, goIsSpace c = false) →
      joinWith [' '] parts ≠ [] ∧
        List.dropWhile goIsSpace (joinWith [' '] parts) =
          joinWith [' '] parts ∧
        List.dropWhile goIsSpace (joinWith [' '] parts).reverse =
          (joinWith [' '] parts).reverse := by
  intro parts
  induction parts with
  | nil => intro h; exact absurd rfl h
  | cons x xs ih =>
    intro _ hwf
    obtain ⟨hxne, hxfree⟩ := hwf x (List.mem_cons_self _ _)
    obtain ⟨a, t, rfl⟩ : ∃ a t, x = a :: t := by
      cases x with
      | nil => exact absurd rfl hxne
      | cons a t => exact ⟨a, t, rfl⟩
    cases xs with
    | nil =>
      refine ⟨by simp [joinWith], ?_, ?_⟩
      · exact dropWhile_of_head_false (hxfree a (List.mem_cons_self _ _))
      · rcases hrev : (a :: t).reverse with _ | ⟨b, rt⟩
        · simp at hrev
        · have hb : b ∈ (a :: t).reverse := by
            rw [hrev]; exact List.mem_cons_self _ _
          have hb2 : goIsSpace b = false :=
            hxfree b (List.mem_reverse.mp hb)
          simp only [joinWith, hrev]
          exact dropWhile_of_head_false hb2
    | cons y ys =>
      have hwf2 : ∀ f ∈ y :: ys, f ≠ [] ∧ ∀ c ∈ f, goIsSpace c = false :=
        fun f hf => hwf f (List.mem_cons_of_mem _ hf)
      obtain ⟨hjne, hjleft, hjright⟩ := ih (by simp) hwf2
      have hjoin : joinWith [' '] ((a :: t) :: y :: ys) =
          a :: (t ++ ' ' :: joinWith [' '] (y :: ys)) := by
        show (a :: t) ++ [' '] ++ joinWith [' '] (y :: ys) = _
        simp
      refine ⟨by rw [hjoin]; simp, ?_, ?_⟩
      · rw [hjoin]
        exact dropWhile_of_head_false (hxfree a (List.mem_cons_self _ _))
      · rw [hjoin]
        obtain ⟨b, bt, hbt⟩ : ∃ b bt, (joinWith [' '] (y :: ys)).reverse =
            b :: bt := by
          rcases hj : (joinWith [' '] (y :: ys)).reverse with _ | ⟨b, bt⟩
          · exact absurd (by simpa using hj) hjne
          · exact ⟨b, bt, rfl⟩
        have hbb : goIsSpace b = false := by
          rw [hbt] at hjright
          exact head_false_of_dropWhile_fix hjright
        have hrev : (a :: (t ++ ' ' :: joinWith [' '] (y :: ys))).reverse =
            b :: (bt ++ (' ' :: t.reverse ++ [a])) := by
          simp only [List.reverse_cons, List.reverse_append, hbt]
          simp
        rw [hrev, dropWhile_of_head_false hbb, ← hrev]

/-! ## Refresh token store

The sqlc-generated queries (`GetUserFromRefreshToken`,
`RevokeRefreshToken`, `CreateRefreshToken`) have no `.sql` source under
src; they are modelled from spec section 4.3 and the code comment at the
`handlerRefresh` call site ("validates token exists, not expired, not
revoked").
-/

/-- A row of the refresh_tokens table (spec section 3: owning user,
creation time, expiry, nullable revocation timestamp). -/
structure RefreshTokenRecord where
  token : String
  userId : UUID
  createdAt : Int
  expiresAt : Int
  revokedAt : Option Int
deriving DecidableEq

/-- The refresh-token table. -/
def RefreshStore : Type := List RefreshTokenRecord

instance : DecidableEq RefreshStore := by
  unfold RefreshStore
  infer_instance

/-- Modelled from the spec: row lookup by primary key. -/
def findRefreshToken (db : RefreshStore) (tok : String) :
    Option RefreshTokenRecord :=
  db.find? (fun r => r.token = tok)

/-- Modelled from the spec: `GetUserFromRefreshToken` — resolves a
refresh token to its owning user only when the record exists, is not
revoked, and is not expired (invariant: usable iff
revoked_at IS NULL AND now < expires_at). -/
def GetUserFromRefreshToken (db : RefreshStore) (tok : String)
    (now : Int) : Option UUID :=
  match findRefreshToken db tok with
  | none => none
  | some r => if r.revokedAt = none ∧ now < r.expiresAt then some r.userId
              else none

/-- Modelled from the spec: `RevokeRefreshToken` — an UPDATE setting the
revocation timestamp to now on the matching record; affects no other
row and does not fail when no row matches. -/
def RevokeRefreshToken (db : RefreshStore) (tok : String) (now : Int) :
    RefreshStore :=
  db.map fun r =>
    if r.token = tok then { r with revokedAt := some now } else r

/-- Modelled from the spec: `CreateRefreshToken` — inserts a fresh row;
the primary key makes a duplicate insert fail, leaving the table
unchanged. -/
def CreateRefreshToken (db : RefreshStore) (tok : String) (uid : UUID)
    (createdAt expiresAt : Int) : RefreshStore :=
  if (findRefreshToken db tok).isSome then db
  else ⟨tok, uid, createdAt, expiresAt, none⟩ :: db

/-- The store operations any later request can perform on the
refresh-token table. -/
inductive StoreOp
  | create (tok : String) (uid : UUID) (createdAt expiresAt : Int)
  | revoke (tok : String) (now : Int)

/-- Apply one store operation. -/
def applyOp (db : RefreshStore) : StoreOp → RefreshStore
  | StoreOp.create tok uid c e => CreateRefreshToken db tok uid c e
  | StoreOp.revoke tok now => RevokeRefreshToken db tok now

/-- Apply a sequence of store operations. -/
def applyOps (db : RefreshStore) (ops : List StoreOp) : RefreshStore :=
  ops.foldl applyOp db

theorem findRefreshToken_revoke_found (db : RefreshStore) (tok : String)
    (now : Int) (r : RefreshTokenRecord)
    (h : findRefreshToken db tok = some r) :
    findRefreshToken (RevokeRefreshToken db tok now) tok =
      some { r with revokedAt := some now } := by
  unfold findRefreshToken RevokeRefreshToken at *
  induction db with
  | nil => simp at h
  | cons x xs ih =>
    by_cases hx : x.token = tok
    · rw [List.find?_cons_of_pos _ (by simpa using hx)] at h
      cases h
      simp only [List.map_cons, if_pos hx]
      rw [List.find?_cons_of_pos _ (by simpa using hx)]
    · rw [List.find?_cons_of_neg _ (by simpa using hx)] at h
      simp only [List.map_cons, if_neg hx]
      rw [List.find?_cons_of_neg _ (by simpa using hx)]
      exact ih h

theorem findRefreshToken_revoke_none (db : RefreshStore) (tok : String)
    (now : Int) (h : findRefreshToken db tok = none) :
    RevokeRefreshToken db tok now = db := by
  unfold findRefreshToken at h
  unfold RevokeRefreshToken
  induction db with
  | nil => rfl
  | cons x xs ih =>
    rcases List.find?_eq_none.mp h x (List.mem_cons_self _ _) with hx
    have hxs : xs.find? (fun r => r.token = tok) = none := by
      rw [List.find?_eq_none]
      intro y hy
      exact List.find?_eq_none.mp h y (List.mem_cons_of_mem _ hy)
    have hx2 : ¬ x.token = tok := by simpa using hx
    simp only [List.map_cons, if_neg hx2]
    rw [ih hxs]

/-- The revoked-forever invariant: once the record for `tok` is present
and revoked, any further creates and revokes keep it present and
revoked. -/
def RevokedAt (db : RefreshStore) (tok : String) : Prop :=
  ∃ r, findRefreshToken db tok = some r ∧ r.revokedAt ≠ none

theorem findRefreshToken_revoke_other (db : RefreshStore)
    (tok tok2 : String) (now : Int) (hne : ¬ tok2 = tok) :
    findRefreshToken (RevokeRefreshToken db tok2 now) tok =
      findRefreshToken db tok := by
  unfold findRefreshToken RevokeRefreshToken
  induction db with
  | nil => rfl
  | cons x xs ih =>
    simp only [List.map_cons]
    by_cases hx2 : x.token = tok2
    · have hx : ¬ x.token = tok := by
        rw [hx2]
        exact hne
      rw [if_pos hx2]
      rw [List.find?_cons_of_neg _ (by simpa using hx),
        List.find?_cons_of_neg _ (by simpa using hx)]
      exact ih
    · rw [if_neg hx2]
      by_cases hx : x.token = tok
      · rw [List.find?_cons_of_pos _ (by simpa using hx),
          List.find?_cons_of_pos _ (by simpa using hx)]
      · rw [List.find?_cons_of_neg _ (by simpa using hx),
          List.find?_cons_of_neg _ (by simpa using hx)]
        exact ih

theorem revokedAt_applyOp (db : RefreshStore) (tok : String)
    (op : StoreOp) (h : RevokedAt db tok) : RevokedAt (applyOp db op) tok := by
  obtain ⟨r, hfind, hrev⟩ := h
  cases op with
  | create tok2 uid c e =>
    simp only [applyOp, CreateRefreshToken]
    by_cases hdup : (findRefreshToken db tok2).isSome
    · rw [if_pos hdup]
      exact ⟨r, hfind, hrev⟩
    · rw [if_neg hdup]
      by_cases heq : tok2 = tok
      · subst heq
        rw [hfind] at hdup
        simp at hdup
      · refine ⟨r, ?_, hrev⟩
        unfold findRefreshToken at hfind ⊢
        rw [List.find?_cons_of_neg _ (by simpa using heq)]
        exact hfind
  | revoke tok2 now =>
    simp only [applyOp]
    by_cases heq : tok2 = tok
    · subst heq
      exact ⟨{ r with revokedAt := some now },
        findRefreshToken_revoke_found db tok2 now r hfind, by simp⟩
    · refine ⟨r, ?_, hrev⟩
      rw [findRefreshToken_revoke_other db tok tok2 now heq]
      exact hfind

theorem revokedAt_applyOps (db : RefreshStore) (tok : String)
    (ops : List StoreOp) (h : RevokedAt db tok) :
    RevokedAt (applyOps db ops) tok := by
  induction ops generalizing db with
  | nil => exact h
  | cons op rest ih =>
    exact ih (applyOp db op) (revokedAt_applyOp db tok op h)

theorem getUser_none_of_revokedAt (db : RefreshStore) (tok : String)
    (now : Int) (h : RevokedAt db tok) :
    GetUserFromRefreshToken db tok now = none := by
  obtain ⟨r, hfind, hrev⟩ := h
  unfold GetUserFromRefreshToken
  rw [hfind]
  simp only []
  rw [if_neg]
  intro hcon
  exact hrev hcon.1

/-! ## Session handlers -/

/-- `time.Hour` in nanoseconds. -/
def hourNs : Int := 3600 * 1000000000

/-- `60 * 24 * time.Hour` in nanoseconds (refresh-token lifetime). -/
def refreshTtlNs : Int := 60 * 24 * hourNs

/-- A row of the users table as the handlers read it. -/
structure DbUser where
  id : UUID
  email : String
  hashedPassword : BcryptHash
  isChirpyRed : Bool
deriving DecidableEq

/-- The decoded JSON body of a login request (part_001 variant: email
and password only). -/
structure LoginRequest where
  email : String
  password : String

/-- The user store: `GetUserByEmail`, with `none` for a query error
(unknown email). -/
def UserStore : Type := String → Option DbUser

namespace Part001

/-- Response bodies `handlerLogin` can produce. -/
inductive LoginBody
  | errorBody (msg : String)
  | success (id : UUID) (email : String) (isChirpyRed : Bool)
      (token : JwtToken) (refreshToken : String)
deriving DecidableEq

/-- `handlerLogin` (src/unnamed/part_001 lines 72-162): decodes the
request (decode errors are upstream of this model), rejects empty
email/password, unknown email and password mismatch each with the same
401 "Incorrect email or password"; on success issues a 1-hour access
token, a fresh refresh token persisted with a 60-day expiry, and
responds 200. `now` and `newRefreshToken` make the clock and the CSPRNG
explicit. -/
def handlerLogin (users : UserStore) (rdb : RefreshStore)
    (req : LoginRequest) (jwtSecret : String) (newRefreshToken : String)
    (now : Int) : Nat × LoginBody × RefreshStore :=
  if req.email = ("") ∨ req.password = ("") then
    (401, LoginBody.errorBody ("Incorrect email or password"), rdb)
  else
    match users req.email with
    | none => (401, LoginBody.errorBody ("Incorrect email or password"), rdb)
    | some dbUser =>
      match CheckPasswordHash dbUser.hashedPassword req.password with
      | some _ =>
        (401, LoginBody.errorBody ("Incorrect email or password"), rdb)
      | none =>
        let accessToken := MakeJWT dbUser.id jwtSecret hourNs now
        let rdb2 := CreateRefreshToken rdb newRefreshToken dbUser.id now
          (now + refreshTtlNs)
        (200, LoginBody.success dbUser.id dbUser.email dbUser.isChirpyRed
          accessToken newRefreshToken, rdb2)

/-- `handlerRefresh` (src/unnamed/part_001 lines 164-205): extracts the
bearer token, resolves it through `GetUserFromRefreshToken`, and on
success mints a fresh 1-hour access token; each failure is a 401. -/
def handlerRefresh (rdb : RefreshStore) (authorizationHeader : Option String)
    (jwtSecret : String) (now : Int) : Nat × Option JwtToken :=
  match GetBearerToken authorizationHeader with
  | Except.error _ => (401, none)
  | Except.ok refreshToken =>
    match GetUserFromRefreshToken rdb refreshToken now with
    | none => (401, none)
    | some userId => (200, some (MakeJWT userId jwtSecret hourNs now))

/-- `handlerRevoke` (src/unnamed/part_001 lines 207-229): extracts the
bearer token (401 on failure) and revokes it; the UPDATE does not
distinguish a missing record, so the handler answers 204 regardless
(the 500 branch is a storage failure, not modelled). -/
def handlerRevoke (rdb : RefreshStore) (authorizationHeader : Option String)
    (now : Int) : Nat × RefreshStore :=
  match GetBearerToken authorizationHeader with
  | Except.error _ => (401, rdb)
  | Except.ok refreshToken => (204, RevokeRefreshToken rdb refreshToken now)

end Part001

namespace HandlersUsers

/-- Wrap an integer into the signed 64-bit range, as Go `int64`
multiplication overflows. -/
def int64Wrap (n : Int) : Int := (n + 2 ^ 63) % 2 ^ 64 - 2 ^ 63

/-- The expiry computation of `handlerLogin`
(src/handlers_users.go lines 113-122): default one hour; a requested
`expires_in_seconds` (converted to a duration, with Go int64 overflow)
is used only when positive and capped at one hour. -/
def loginExpiresIn (expiresInSeconds : Option Int) : Int :=
  match expiresInSeconds with
  | none => hourNs
  | some s =>
    let requestedDuration := int64Wrap (s * 1000000000)
    if requestedDuration > hourNs then hourNs
    else if requestedDuration > 0 then requestedDuration
    else hourNs

/-- The decoded JSON body of a login request (handlers_users.go variant
with the optional `expires_in_seconds` override). -/
structure LoginRequestTTL where
  email : String
  password : String
  expiresInSeconds : Option Int

/-- Response bodies this `handlerLogin` variant can produce. -/
inductive LoginBody
  | errorBody (msg : String)
  | success (id : UUID) (email : String) (token : JwtToken)
deriving DecidableEq

/-- `handlerLogin` (src/handlers_users.go lines 70-148): same rejection
flow as the part_001 variant, but the access-token TTL honours the
clamped client override and no refresh token is issued. -/
def handlerLogin (users : UserStore) (req : LoginRequestTTL)
    (jwtSecret : String) (now : Int) : Nat × LoginBody :=
  if req.email = ("") ∨ req.password = ("") then
    (401, LoginBody.errorBody ("Incorrect email or password"))
  else
    match users req.email with
    | none => (401, LoginBody.errorBody ("Incorrect email or password"))
    | some dbUser =>
      match CheckPasswordHash dbUser.hashedPassword req.password with
      | some _ => (401, LoginBody.errorBody ("Incorrect email or password"))
      | none =>
        let expiresIn := loginExpiresIn req.expiresInSeconds
        (200, LoginBody.success dbUser.id dbUser.email
          (MakeJWT dbUser.id jwtSecret expiresIn now))

end HandlersUsers

/-! ## Chirp creation -/

/-- `cleanProfanity` (handlers_chirp.go): replaces whitespace-separated
words that lowercase to a profane word by "****" and rejoins with single
spaces. -/
def cleanProfanity (text : List Char) : List Char :=
  let profaneWords : List (List Char) :=
    [("kerfuffle").data, ("sharbert").data, ("fornax").data]
  joinWith [' ']
    ((fields text).map fun w =>
      if profaneWords.contains (goToLower w) then ("****").data else w)

namespace ChirpV1

/-- The decoded JSON body of the first `handlerCreateChirp` variant:
the chirp text plus a client-supplied author id. -/
structure CreateChirpBody where
  body : String
  userId : UUID
deriving DecidableEq

/-- Responses of the first `handlerCreateChirp` variant. -/
inductive ChirpResponse
  | errorBody (msg : String)
  | created (body : String) (userId : UUID)
deriving DecidableEq

/-- `handlerCreateChirp` (src/handlers_chirp.go lines 24-76, the variant
without token validation): never reads the Authorization header; decode
failure and an empty or over-140-byte body are 400s; otherwise the chirp
is stored with the author id taken from the request body and the handler
answers 201. -/
def handlerCreateChirp (_authorizationHeader : Option String)
    (reqBody : Option CreateChirpBody) : Nat × ChirpResponse :=
  match reqBody with
  | none => (400, ChirpResponse.errorBody ("Something went wrong"))
  | some rb =>
    if rb.body = ("") then
      (400, ChirpResponse.errorBody ("Body is required"))
    else if 140 < rb.body.utf8ByteSize then
      (400, ChirpResponse.errorBody ("Chirp is too long"))
    else
      (201, ChirpResponse.created (String.mk (cleanProfanity rb.body.data))
        rb.userId)

end ChirpV1

/-! ## Concrete fixtures used by the witnesses -/

/-- A concrete identity. -/
def u1 : UUID := ⟨1, by norm_num⟩

/-- A concrete refresh-token row. -/
def refreshRec0 : RefreshTokenRecord :=
  { token := "tk", userId := u1, createdAt := 0, expiresAt := 100,
    revokedAt := none }

/-- A one-row refresh-token table. -/
def refreshDb0 : RefreshStore := [refreshRec0]

/-- A concrete stored user. -/
def witnessUser : DbUser :=
  { id := u1, email := "b@x.com", hashedPassword := HashPassword ("pw") 7,
    isChirpyRed := false }

/-- A one-user store keyed by email. -/
def witnessUsers : UserStore :=
  fun e => if e = ("b@x.com") then some witnessUser else none

/-! ## Claims -/

/-- Claim C1: validating the token produced by `MakeJWT u s ttl` under
the same secret `s`, at any time before `ttl` has elapsed since
issuance, succeeds and returns exactly `u`. -/
theorem access_token_round_trip (u : UUID) (s : String) (ttl now t : Int)
    (_httl : 0 < ttl) (_hle : now ≤ t) (hlt : t < now + ttl) :
    ValidateJWT (MakeJWT u s ttl now) s t = Except.ok u :=
  validateJWT_makeJWT u s ttl now t hlt

theorem access_token_round_trip_witness :
    (0 : Int) < 3600 ∧ (0 : Int) ≤ 10 ∧ (10 : Int) < 0 + 3600 ∧
      ValidateJWT (MakeJWT u1 ("secret") 3600 0) ("secret") 10 =
        Except.ok u1 :=
  ⟨by decide, by decide, by decide,
    access_token_round_trip u1 ("secret") 3600 0 10 (by decide) (by decide)
      (by decide)⟩

/-- Claim C2: access-token validation succeeds exactly when the
signature verifies under the supplied secret, the expiry is still in the
future, and the subject parses as an identity — and in particular a
token issued under `s1` never validates under `s2 ≠ s1`. -/
theorem access_token_validation_exact :
    (∀ (tok : JwtToken) (secret : String) (now : Int),
        jwtOk (ValidateJWT tok secret now) = true ↔
          (tok.sig = { signedClaims := tok.claims, key := secret } ∧
            now < tok.claims.expiresAt ∧
            (uuidParseString tok.claims.subject).isSome = true)) ∧
    (∀ (u : UUID) (s1 s2 : String) (ttl now t : Int), s1 ≠ s2 →
        jwtOk (ValidateJWT (MakeJWT u s1 ttl now) s2 t) = false) := by
  constructor
  · intro tok secret now
    unfold ValidateJWT
    by_cases hsig : tok.sig = { signedClaims := tok.claims, key := secret }
    · rw [if_neg (by simpa using hsig)]
      by_cases hexp : now < tok.claims.expiresAt
      · rw [if_neg (by simpa using hexp)]
        cases hparse : uuidParseString tok.claims.subject with
        | none => simp [jwtOk, hsig, hexp, hparse]
        | some v => simp [jwtOk, hsig, hexp, hparse]
      · rw [if_pos (by simpa using hexp)]
        simp [jwtOk, hsig, hexp]
    · rw [if_pos (by simpa using hsig)]
      simp [jwtOk, hsig]
  · intro u s1 s2 ttl now t hne
    unfold MakeJWT ValidateJWT
    rw [if_pos]
    · rfl
    · simp only [ne_eq, MacSig.mk.injEq, not_and]
      intro _
      exact hne

theorem access_token_validation_exact_witness :
    ("a" : String) ≠ ("b") ∧
      jwtOk (ValidateJWT (MakeJWT u1 ("a") 3600 0) ("b") 10) = false :=
  ⟨by decide, access_token_validation_exact.2 u1 ("a") ("b") 3600 0 10
    (by decide)⟩

/-- Claim C3: a stored refresh token resolves to its owning user exactly
when its revocation timestamp is unset and the current time is before
its expiry; after a revoke the record still exists with its original
expiry but resolution fails, and stays failing under any further store
operations. -/
theorem refresh_token_usability :
    (∀ (db : RefreshStore) (tok : String) (now : Int),
        (GetUserFromRefreshToken db tok now).isSome = true ↔
          ∃ r, findRefreshToken db tok = some r ∧ r.revokedAt = none ∧
            now < r.expiresAt) ∧
    (∀ (db : RefreshStore) (tok : String) (t : Int)
        (r : RefreshTokenRecord), findRefreshToken db tok = some r →
        findRefreshToken (RevokeRefreshToken db tok t) tok =
          some { r with revokedAt := some t } ∧
        ∀ (ops : List StoreOp) (now : Int),
          GetUserFromRefreshToken
            (applyOps (RevokeRefreshToken db tok t) ops) tok now = none) := by
  constructor
  · intro db tok now
    unfold GetUserFromRefreshToken
    cases hfind : findRefreshToken db tok with
    | none => simp [hfind]
    | some r =>
      simp only []
      by_cases hP : r.revokedAt = none ∧ now < r.expiresAt
      · rw [if_pos hP]
        simp only [Option.isSome_some, true_iff]
        exact ⟨r, rfl, hP.1, hP.2⟩
      · rw [if_neg hP]
        constructor
        · intro hcon
          simp at hcon
        · intro hcon
          exfalso
          obtain ⟨r2, hr2, hrv, hlt⟩ := hcon
          rw [Option.some_inj] at hr2
          subst hr2
          exact hP ⟨hrv, hlt⟩
  · intro db tok t r hfind
    have hfound := findRefreshToken_revoke_found db tok t r hfind
    refine ⟨hfound, ?_⟩
    intro ops now
    have hrevd : RevokedAt (RevokeRefreshToken db tok t) tok :=
      ⟨{ r with revokedAt := some t }, hfound, by simp⟩
    exact getUser_none_of_revokedAt _ tok now
      (revokedAt_applyOps _ tok ops hrevd)

theorem refresh_token_usability_witness :
    findRefreshToken refreshDb0 ("tk") = some refreshRec0 ∧
      findRefreshToken (RevokeRefreshToken refreshDb0 ("tk") 5) ("tk") =
        some { refreshRec0 with revokedAt := some 5 } ∧
      GetUserFromRefreshToken
        (applyOps (RevokeRefreshToken refreshDb0 ("tk") 5) []) ("tk") 50 =
        none := by
  have h := refresh_token_usability.2 refreshDb0 ("tk") 5 refreshRec0 (by rfl)
  exact ⟨by rfl, h.1, h.2 [] 50⟩

/-- Claim C4 (code bug): the chirp-creation handler at
handlers_chirp.go lines 24-76 accepts a request with no Authorization
header and creates the chirp attributed to the client-supplied user id,
although the claim (and the repository README) require the author
identity to come from a validated access token. -/
theorem chirp_creation_unauthenticated_bug :
    ChirpV1.handlerCreateChirp none
        (some { body := "hello", userId := u1 }) =
      (201, ChirpV1.ChirpResponse.created ("hello") u1) := by
  decide

/-- Claim C5: verifying a password against its own hash succeeds, and
verifying any other password against it fails with the distinguished
mismatch outcome. -/
theorem password_hash_round_trip (p pBad : String) (salt : Nat) :
    CheckPasswordHash (HashPassword p salt) p = none ∧
    (pBad ≠ p →
      CheckPasswordHash (HashPassword p salt) pBad =
        some BcryptError.mismatchedHashAndPassword) := by
  constructor
  · simp [CheckPasswordHash, HashPassword]
  · intro hne
    unfold CheckPasswordHash HashPassword
    rw [if_neg]
    intro hcon
    exact hne hcon.symm

theorem password_hash_round_trip_witness :
    ("b" : String) ≠ ("a") ∧
      CheckPasswordHash (HashPassword ("a") 0) ("a") = none ∧
      CheckPasswordHash (HashPassword ("a") 0) ("b") =
        some BcryptError.mismatchedHashAndPassword :=
  ⟨by decide, (password_hash_round_trip ("a") ("b") 0).1,
    (password_hash_round_trip ("a") ("b") 0).2 (by decide)⟩

/-- `trimSpace` is the identity on a list both of whose ends resist
whitespace-stripping. -/
theorem trimSpace_fix {l : List Char}
    (h1 : List.dropWhile goIsSpace l = l)
    (h2 : List.dropWhile goIsSpace l.reverse = l.reverse) :
    trimSpace l = l := by
  unfold trimSpace
  rw [h1, h2, List.reverse_reverse]

/-- The fully if-then-else normal form of `GetBearerToken`. -/
theorem getBearerToken_eq (h : Option String) :
    GetBearerToken h =
      (if h.getD ("") = ("") then Except.error BearerError.missingHeader
       else if (fields (h.getD ("")).data).length < 2 ∨
           goToLower ((fields (h.getD ("")).data).headD []) ≠ ("bearer").data
         then Except.error BearerError.malformedScheme
       else if trimSpace (joinWith [' ']
             ((fields (h.getD ("")).data).drop 1)) = []
         then Except.error BearerError.emptyToken
       else Except.ok (String.mk (trimSpace (joinWith [' ']
             ((fields (h.getD ("")).data).drop 1))))) := rfl

/-- Claim C6 counterexample: on the header value "Bearer " (scheme word
with nothing after it) the code fails with the malformed-scheme error,
not the empty-token error the claim assigns to that case. -/
theorem bearer_empty_token_misattributed :
    GetBearerToken (some ("Bearer ")) =
        Except.error BearerError.malformedScheme ∧
      GetBearerToken (some ("Bearer ")) ≠
        Except.error BearerError.emptyToken := by
  constructor
  · rfl
  · intro hcon
    rw [show GetBearerToken (some ("Bearer ")) =
        Except.error BearerError.malformedScheme from rfl] at hcon
    exact BearerError.noConfusion (Except.error.inj hcon)

/-- Claim C6 as amended: extraction fails with MissingHeader exactly
when the Authorization header is absent (or empty); it fails with
MalformedScheme exactly when there are fewer than two whitespace
fields — including the case where nothing remains after the scheme
word — or the first field does not case-insensitively equal "bearer";
the EmptyToken error is unreachable; and otherwise the trailing fields
rejoined with single spaces are returned. -/
theorem bearer_extraction_contract (h : Option String) :
    (GetBearerToken h = Except.error BearerError.missingHeader ↔
      h.getD ("") = ("")) ∧
    (GetBearerToken h = Except.error BearerError.malformedScheme ↔
      h.getD ("") ≠ ("") ∧
        ((fields (h.getD ("")).data).length < 2 ∨
          goToLower ((fields (h.getD ("")).data).headD []) ≠
            ("bearer").data)) ∧
    GetBearerToken h ≠ Except.error BearerError.emptyToken ∧
    (∀ (first : List Char) (rest : List (List Char)),
      fields (h.getD ("")).data = first :: rest →
      goToLower first = ("bearer").data → rest ≠ [] →
      GetBearerToken h = Except.ok (String.mk (joinWith [' '] rest))) := by
  rw [getBearerToken_eq h]
  by_cases hg : h.getD ("") = ("")
  · rw [if_pos hg]
    refine ⟨by simp [hg], by simp [hg], by simp, ?_⟩
    intro first rest hfe hlow hrest
    rw [hg] at hfe
    rw [show fields (("" : String)).data = [] from rfl] at hfe
    exact List.noConfusion hfe
  · rw [if_neg hg]
    by_cases hm : (fields (h.getD ("")).data).length < 2 ∨
        goToLower ((fields (h.getD ("")).data).headD []) ≠ ("bearer").data
    · rw [if_pos hm]
      refine ⟨by simp [hg], ⟨fun _ => ⟨hg, hm⟩, fun _ => rfl⟩, by simp, ?_⟩
      intro first rest hfe hlow hrest
      exfalso
      rcases hm with hlen | hne
      · rw [hfe] at hlen
        cases rest with
        | nil => exact hrest rfl
        | cons a b =>
          simp only [List.length_cons] at hlen
          omega
      · rw [hfe] at hne
        rw [List.headD_cons] at hne
        exact hne hlow
    · rw [if_neg hm]
      push_neg at hm
      obtain ⟨hlen, hbear⟩ := hm
      obtain ⟨first, rest, hfe, hrest⟩ : ∃ first rest,
          fields (h.getD ("")).data = first :: rest ∧ rest ≠ [] := by
        rcases hp : fields (h.getD ("")).data with _ | ⟨f, t⟩
        · rw [hp] at hlen
          simp at hlen
        · cases t with
          | nil =>
            rw [hp] at hlen
            simp at hlen
          | cons a b => exact ⟨f, a :: b, rfl, by simp⟩
      have hwf := fields_wf (h.getD ("")).data
      have hdrop : (fields (h.getD ("")).data).drop 1 = rest := by
        rw [hfe]
        rfl
      have hwfrest : ∀ f ∈ rest, f ≠ [] ∧ ∀ c ∈ f, goIsSpace c = false := by
        intro f hf
        refine hwf f ?_
        rw [hfe]
        exact List.mem_cons_of_mem _ hf
      obtain ⟨hjne, hjl, hjr⟩ := joinWith_trim_invariant rest hrest hwfrest
      have htrim : trimSpace (joinWith [' ']
          ((fields (h.getD ("")).data).drop 1)) = joinWith [' '] rest := by
        rw [hdrop]
        exact trimSpace_fix hjl hjr
      rw [htrim, if_neg hjne]
      refine ⟨by simp [hg], ?_, by simp, ?_⟩
      · constructor
        · intro hcon
          simp at hcon
        · intro hcon
          exfalso
          obtain ⟨_, hAB⟩ := hcon
          rcases hAB with hA | hB
          · omega
          · exact hB hbear
      · intro first2 rest2 hfe2 hlow2 hrest2
        rw [hfe] at hfe2
        injection hfe2 with hh ht
        rw [ht]

theorem bearer_extraction_contract_witness :
    fields (((some ("Bearer  tok123  ")).getD ("")).data) =
        [("Bearer").data, ("tok123").data] ∧
      goToLower (("Bearer").data) = ("bearer").data ∧
      GetBearerToken (some ("Bearer  tok123  ")) =
        Except.ok (String.mk (joinWith [' '] [("tok123").data])) := by
  refine ⟨by decide, by decide, ?_⟩
  exact (bearer_extraction_contract (some ("Bearer  tok123  "))).2.2.2
    (("Bearer").data) [("tok123").data] (by decide) (by decide) (by decide)

/-- Claim C7: a login with an unknown email and a login with a known
email but mismatching password produce identical responses — the same
401 status with the same generic message, and an untouched store. -/
theorem login_rejection_noninterference
    (users : UserStore) (rdb : RefreshStore) (r1 r2 : LoginRequest)
    (u : DbUser) (s1 s2 rt1 rt2 : String) (n1 n2 : Int)
    (hunknown : users r1.email = none)
    (hknown : users r2.email = some u)
    (hmismatch : CheckPasswordHash u.hashedPassword r2.password ≠ none) :
    Part001.handlerLogin users rdb r1 s1 rt1 n1 =
      Part001.handlerLogin users rdb r2 s2 rt2 n2 ∧
    Part001.handlerLogin users rdb r1 s1 rt1 n1 =
      (401, Part001.LoginBody.errorBody ("Incorrect email or password"),
        rdb) := by
  have h1 : Part001.handlerLogin users rdb r1 s1 rt1 n1 =
      (401, Part001.LoginBody.errorBody ("Incorrect email or password"),
        rdb) := by
    unfold Part001.handlerLogin
    by_cases he : r1.email = ("") ∨ r1.password = ("")
    · rw [if_pos he]
    · rw [if_neg he]
      simp only [hunknown]
  have h2 : Part001.handlerLogin users rdb r2 s2 rt2 n2 =
      (401, Part001.LoginBody.errorBody ("Incorrect email or password"),
        rdb) := by
    unfold Part001.handlerLogin
    by_cases he : r2.email = ("") ∨ r2.password = ("")
    · rw [if_pos he]
    · rw [if_neg he]
      simp only [hknown]
      cases hc : CheckPasswordHash u.hashedPassword r2.password with
      | none => exact absurd hc hmismatch
      | some e => simp only [hc]
  exact ⟨h1.trans h2.symm, h1⟩

theorem login_rejection_noninterference_witness :
    witnessUsers ("a@x.com") = none ∧
      witnessUsers ("b@x.com") = some witnessUser ∧
      CheckPasswordHash witnessUser.hashedPassword ("wrong") ≠ none ∧
      Part001.handlerLogin witnessUsers refreshDb0
          { email := "a@x.com", password := "whatever" } ("s1") ("rt1") 1 =
        Part001.handlerLogin witnessUsers refreshDb0
          { email := "b@x.com", password := "wrong" } ("s2") ("rt2") 2 := by
  refine ⟨by rfl, by rfl, by decide, ?_⟩
  exact (login_rejection_noninterference witnessUsers refreshDb0
    { email := "a@x.com", password := "whatever" }
    { email := "b@x.com", password := "wrong" } witnessUser ("s1") ("s2")
    ("rt1") ("rt2") 1 2 (by rfl) (by rfl) (by decide)).1

/-- Claim C8: once the Authorization header parses as a bearer token,
revoke answers 204 whether or not a matching record exists, revokes
nothing when the record is absent, and a second revoke also answers 204
and merely re-stamps the revocation timestamp. -/
theorem revoke_idempotent_nonleaking (rdb : RefreshStore)
    (h : Option String) (tok : String) (t1 t2 : Int)
    (hok : GetBearerToken h = Except.ok tok) :
    (Part001.handlerRevoke rdb h t1).1 = 204 ∧
    (Part001.handlerRevoke (Part001.handlerRevoke rdb h t1).2 h t2).1 =
      204 ∧
    (findRefreshToken rdb tok = none →
      (Part001.handlerRevoke rdb h t1).2 = rdb) ∧
    (∀ r, findRefreshToken rdb tok = some r →
      findRefreshToken
        (Part001.handlerRevoke
          (Part001.handlerRevoke rdb h t1).2 h t2).2 tok =
        some { r with revokedAt := some t2 }) := by
  simp only [Part001.handlerRevoke, hok]
  refine ⟨by trivial, by trivial, ?_, ?_⟩
  · intro hnone
    exact findRefreshToken_revoke_none rdb tok t1 hnone
  · intro r hr
    have hstep1 := findRefreshToken_revoke_found rdb tok t1 r hr
    have hstep2 := findRefreshToken_revoke_found
      (RevokeRefreshToken rdb tok t1) tok t2
      { r with revokedAt := some t1 } hstep1
    exact hstep2

theorem revoke_idempotent_nonleaking_witness :
    GetBearerToken (some ("Bearer tk")) = Except.ok ("tk") ∧
      (Part001.handlerRevoke refreshDb0 (some ("Bearer tk")) 5).1 = 204 ∧
      (Part001.handlerRevoke
        (Part001.handlerRevoke refreshDb0 (some ("Bearer tk")) 5).2
        (some ("Bearer tk")) 9).1 = 204 ∧
      findRefreshToken
        (Part001.handlerRevoke
          (Part001.handlerRevoke refreshDb0 (some ("Bearer tk")) 5).2
          (some ("Bearer tk")) 9).2 ("tk") =
        some { refreshRec0 with revokedAt := some 9 } := by
  have h := revoke_idempotent_nonleaking refreshDb0 (some ("Bearer tk"))
    ("tk") 5 9 (by rfl)
  exact ⟨by rfl, h.1, h.2.1, h.2.2.2 refreshRec0 (by rfl)⟩

/-- `loginExpiresIn` always lands in the interval (0, one hour]. -/
theorem loginExpiresIn_bounds (o : Option Int) :
    0 < HandlersUsers.loginExpiresIn o ∧
      HandlersUsers.loginExpiresIn o ≤ hourNs := by
  cases o with
  | none =>
    constructor <;> norm_num [HandlersUsers.loginExpiresIn, hourNs]
  | some s =>
    simp only [HandlersUsers.loginExpiresIn]
    by_cases hbig : HandlersUsers.int64Wrap (s * 1000000000) > hourNs
    · rw [if_pos hbig]
      constructor <;> norm_num [hourNs]
    · rw [if_neg hbig]
      by_cases hpos : HandlersUsers.int64Wrap (s * 1000000000) > 0
      · rw [if_pos hpos]
        exact ⟨hpos, by omega⟩
      · rw [if_neg hpos]
        constructor <;> norm_num [hourNs]

/-- Claim C9: the login TTL computation defaults to one hour, clamps a
two-hour request to one hour, always lands in (0, one hour], and the
access token issued by a successful login therefore lives at most one
hour. -/
theorem access_token_ttl_clamped :
    HandlersUsers.loginExpiresIn none = hourNs ∧
    HandlersUsers.loginExpiresIn (some 7200) = hourNs ∧
    (∀ o, 0 < HandlersUsers.loginExpiresIn o ∧
      HandlersUsers.loginExpiresIn o ≤ hourNs) ∧
    (∀ (users : UserStore) (req : HandlersUsers.LoginRequestTTL)
        (s : String) (now : Int) (st : Nat) (id : UUID) (em : String)
        (tk : JwtToken),
        HandlersUsers.handlerLogin users req s now =
          (st, HandlersUsers.LoginBody.success id em tk) →
        tk.claims.expiresAt - tk.claims.issuedAt =
          HandlersUsers.loginExpiresIn req.expiresInSeconds ∧
        tk.claims.expiresAt - tk.claims.issuedAt ≤ hourNs) := by
  refine ⟨rfl, by decide, loginExpiresIn_bounds, ?_⟩
  intro users req s now st id em tk hrun
  unfold HandlersUsers.handlerLogin at hrun
  by_cases he : req.email = ("") ∨ req.password = ("")
  · rw [if_pos he] at hrun
    simp at hrun
  · rw [if_neg he] at hrun
    cases hu : users req.email with
    | none =>
      simp only [hu] at hrun
      simp at hrun
    | some dbUser =>
      simp only [hu] at hrun
      cases hc : CheckPasswordHash dbUser.hashedPassword req.password with
      | some e =>
        simp only [hc] at hrun
        simp at hrun
      | none =>
        simp only [hc, Prod.mk.injEq,
          HandlersUsers.LoginBody.success.injEq] at hrun
        obtain ⟨hst, hid, hem, htk⟩ := hrun
        subst htk
        unfold MakeJWT
        constructor
        · simp
        · have hb := loginExpiresIn_bounds req.expiresInSeconds
          simp only []
          omega

theorem access_token_ttl_clamped_witness :
    HandlersUsers.handlerLogin witnessUsers
        { email := "b@x.com", password := "pw",
          expiresInSeconds := some 7200 } ("sec") 0 =
      (200, HandlersUsers.LoginBody.success u1 ("b@x.com")
        (MakeJWT u1 ("sec") hourNs 0)) ∧
      (MakeJWT u1 ("sec") hourNs 0).claims.expiresAt -
          (MakeJWT u1 ("sec") hourNs 0).claims.issuedAt ≤ hourNs := by
  have heval : HandlersUsers.handlerLogin witnessUsers
      { email := "b@x.com", password := "pw",
        expiresInSeconds := some 7200 } ("sec") 0 =
      (200, HandlersUsers.LoginBody.success u1 ("b@x.com")
        (MakeJWT u1 ("sec") hourNs 0)) := by decide
  exact ⟨heval,
    (access_token_ttl_clamped.2.2.2 witnessUsers
      { email := "b@x.com", password := "pw",
        expiresInSeconds := some 7200 } ("sec") 0 200 u1 ("b@x.com")
      (MakeJWT u1 ("sec") hourNs 0) heval).2⟩

/-- Claim C10: validation never inspects the issuer claim — a token
whose signature verifies over any claims record whose expiry is in the
future and whose subject is a rendered identity validates successfully
whatever its issuer, including issuers different from "chirpy". -/
theorem issuer_not_checked (claims : RegisteredClaims) (u : UUID)
    (s : String) (now : Int) (hsub : claims.subject = uuidString u)
    (hexp : now < claims.expiresAt) :
    ValidateJWT ⟨claims, ⟨claims, s⟩⟩ s now = Except.ok u := by
  unfold ValidateJWT
  simp only [ne_eq, not_true_eq_false, if_false, ite_not]
  rw [if_pos hexp, hsub, uuidParseString_uuidString]

theorem issuer_not_checked_witness :
    ("evil" : String) ≠ ("chirpy") ∧
      (RegisteredClaims.mk ("evil") (uuidString u1) 0 100).subject =
        uuidString u1 ∧
      (0 : Int) < (RegisteredClaims.mk ("evil") (uuidString u1) 0
        100).expiresAt ∧
      ValidateJWT ⟨RegisteredClaims.mk ("evil") (uuidString u1) 0 100,
        ⟨RegisteredClaims.mk ("evil") (uuidString u1) 0 100, "k"⟩⟩
        ("k") 0 = Except.ok u1 :=
  ⟨by decide, rfl, by decide,
    issuer_not_checked (RegisteredClaims.mk ("evil") (uuidString u1) 0 100)
      u1 ("k") 0 rfl (by decide)⟩

end Chirpy
